import Mathlib

/-!
Shallow embedding of `scripts/token_estimation.py` (Instawork/llm-proxy).

Modelling conventions:
* Python `str` is modelled as `List Char`; Python `int` as `Int`; Python
  `float` arithmetic (`statistics.fmean`, division, `math.ceil(0.95 * n)`)
  is modelled exactly over `ℚ` (the literal `0.95` is the exact rational
  19/20; for any realizable list length the binary-float product `0.95 * n`
  has the same ceiling as the exact rational product).
* `math.sqrt` (inside `statistics.pstdev`) is modelled as `Real.sqrt`.
* The stateful `random.Random` object is modelled as a pure stream
  `rng : Nat → Nat` of draws together with an explicit cursor `off : Nat`;
  `rng.choice(LOREM_WORDS)` at cursor `off` picks index
  `rng off % LOREM_WORDS.length`, and the cursor advances by one per draw.
* Code that raises (`statistics.fmean []`, float division by zero) returns
  `Except.error`; exceptions propagate through `do`-bind like Python.
* The tokenizers are opaque black boxes: tiktoken's per-model encoder is an
  arbitrary parameter `openaiCount`, the cl100k_base encoder is the
  `approxEncode` field of the environment (a token-id list; counting takes
  its length), and the Anthropic live API is `liveCall`, returning `none`
  when the call raises.
-/

namespace TokenEstimation

/-- The fixed word corpus `LOREM_WORDS` from the source, duplicates included. -/
def LOREM_WORDS : List String :=
  ["lorem", "ipsum", "dolor", "sit", "amet", "consectetur", "adipiscing",
   "elit", "sed", "do", "eiusmod", "tempor", "incididunt", "ut", "labore",
   "et", "dolore", "magna", "aliqua", "ut", "enim", "ad", "minim", "veniam",
   "quis", "nostrud", "exercitation", "ullamco", "laboris", "nisi", "ut",
   "aliquip", "ex", "ea", "commodo", "consequat", "duis", "aute", "irure",
   "dolor", "in", "reprehenderit", "in", "voluptate", "velit", "esse",
   "cillum", "dolore", "eu", "fugiat", "nulla", "pariatur", "excepteur",
   "sint", "occaecat", "cupidatat", "non", "proident", "sunt", "in",
   "culpa", "qui", "officia", "deserunt", "mollit", "anim", "id", "est",
   "laborum"]

/-- The corpus with each word as a character list (Python `str` model). -/
def loremWords : List (List Char) := LOREM_WORDS.map String.data

/-- Python `" ".join(words)`: concatenate with a single space between
consecutive words. -/
def joinWords : List (List Char) → List Char
  | [] => []
  | [w] => w
  | w :: ws => w ++ (' ' :: joinWords ws)

/-- Python slicing `s[:k]` for an arbitrary integer `k`: a non-negative `k`
takes the first `k` characters (clamped at the length), a negative `k` drops
the last `-k` characters. -/
def pySlice (k : Int) (s : List Char) : List Char :=
  if 0 ≤ k then s.take k.toNat else s.take (s.length - (-k).toNat)

/-- One draw `rng.choice(LOREM_WORDS)` of the modelled random source at
cursor `off`. -/
def lorem_choice (rng : Nat → Nat) (off : Nat) : List Char :=
  loremWords.getD (rng off % loremWords.length) []

/-- Every word of the corpus is a non-empty string. -/
lemma loremWords_all_pos : ∀ w ∈ loremWords, 0 < w.length := by decide

/-- The corpus has 69 entries. -/
lemma loremWords_length : loremWords.length = 69 := by decide

/-- Each drawn word is non-empty. -/
lemma lorem_choice_length_pos (rng : Nat → Nat) (off : Nat) :
    0 < (lorem_choice rng off).length := by
  have hlt : rng off % loremWords.length < loremWords.length := by
    refine Nat.mod_lt _ ?_
    rw [loremWords_length]; omega
  rw [lorem_choice, List.getD_eq_getElem _ _ hlt]
  exact loremWords_all_pos _ (List.getElem_mem hlt)

/-- Appending a non-empty word strictly lengthens the space-joined text. -/
lemma joinWords_length_lt (ws : List (List Char)) (w : List Char)
    (hw : 0 < w.length) :
    (joinWords ws).length < (joinWords (ws ++ [w])).length := by
  induction ws with
  | nil => simpa [joinWords] using hw
  | cons a t ih =>
    cases t with
    | nil => simp [joinWords]
    | cons b t2 =>
      have : (a :: b :: t2) ++ [w] = a :: ((b :: t2) ++ [w]) := by simp
      rw [this]
      have h2 : joinWords (a :: ((b :: t2) ++ [w])) =
          a ++ (' ' :: joinWords ((b :: t2) ++ [w])) := by
        cases t2 <;> simp [joinWords]
      rw [h2]
      have h3 : joinWords (a :: b :: t2) = a ++ (' ' :: joinWords (b :: t2)) := by
        simp [joinWords]
      rw [h3]
      simp only [List.length_append, List.length_cons]
      omega

/-- The `while True` loop body of `generate_lorem_text_by_chars`: append a
drawn word, join with spaces, and return the slice `text[:target_chars]` as
soon as the joined length reaches `target_chars`.  Returns the produced text
together with the advanced rng cursor. -/
def generate_go (target_chars : Int) (rng : Nat → Nat) (off : Nat)
    (words : List (List Char)) : List Char × Nat :=
  if target_chars ≤ ((joinWords (words ++ [lorem_choice rng off])).length : Int) then
    (pySlice target_chars (joinWords (words ++ [lorem_choice rng off])), off + 1)
  else
    generate_go target_chars rng (off + 1) (words ++ [lorem_choice rng off])
termination_by target_chars.toNat + 1 - (joinWords words).length
decreasing_by
  have h1 : (joinWords words).length <
      (joinWords (words ++ [lorem_choice rng off])).length :=
    joinWords_length_lt words _ (lorem_choice_length_pos rng off)
  rename_i h
  omega

/-- Source `generate_lorem_text_by_chars(target_chars, rng)`, with the rng
state made explicit: takes the stream and current cursor, returns the text
and the new cursor. -/
def generate_lorem_text_by_chars (target_chars : Int) (rng : Nat → Nat)
    (off : Nat) : List Char × Nat :=
  generate_go target_chars rng off []

/-- Fuel-indexed small-step version of the same loop, used to state
termination: `none` means the loop was still running after `fuel`
iterations. -/
def generate_go_fuel (fuel : Nat) (target_chars : Int) (rng : Nat → Nat)
    (off : Nat) (words : List (List Char)) : Option (List Char × Nat) :=
  match fuel with
  | 0 => none
  | fuel + 1 =>
    if target_chars ≤ ((joinWords (words ++ [lorem_choice rng off])).length : Int) then
      some (pySlice target_chars (joinWords (words ++ [lorem_choice rng off])), off + 1)
    else
      generate_go_fuel fuel target_chars rng (off + 1) (words ++ [lorem_choice rng off])

/-- The ambient execution environment of `get_anthropic_counter`: whether the
`import anthropic` at module top succeeded, the `ANTHROPIC_API_KEY`
environment variable, the live Count Tokens API (`none` models a raised
exception), and the opaque cl100k_base encoder (a list of token ids). -/
structure AnthropicEnv where
  sdkAvailable : Bool
  envKey : Option String
  liveCall : String → List Char → Option Int
  approxEncode : List Char → List Nat

/-- Python truthiness of an `Optional[str]`: `None` and the empty string are
falsy. -/
def strTruthy : Option String → Bool
  | none => false
  | some s => decide (s ≠ "")

/-- Line `effective_key = api_key or env_key`: Python `or` returns the first
operand when it is truthy, the second otherwise. -/
def effective_key (api_key env_key : Option String) : Option String :=
  if strTruthy api_key then api_key else env_key

/-- The approximate count `len(approx_enc.encode(text))` with cl100k_base. -/
def approx_count (env : AnthropicEnv) (text : List Char) : Int :=
  ((env.approxEncode text).length : Int)

/-- Source `get_anthropic_counter(api_key)`: if the SDK imported and the
resolved key is truthy, bind the live counter (whose every call falls back to
the cl100k_base approximation when the live call raises); otherwise bind the
approximate counter for the whole run. -/
def get_anthropic_counter (env : AnthropicEnv) (api_key : Option String) :
    String → List Char → Int :=
  if env.sdkAvailable && strTruthy (effective_key api_key env.envKey) then
    fun model text =>
      match env.liveCall model text with
      | some n => n
      | none => approx_count env text
  else
    fun _ text => approx_count env text

/-- The record produced by `summarize_counts` (dataclass `SampleStats`). -/
structure SampleStats where
  size_label : List Char
  model : String
  provider : String
  num_trials : Nat
  mean_tokens : ℚ
  p50_tokens : ℚ
  p95_tokens : ℚ
  stdev_tokens : ℝ
  mean_tokens_per_1k_chars : ℚ

/-- Python `statistics.fmean`: the arithmetic mean `sum / n` (exact model of
the float mean). -/
def fmean (xs : List Int) : ℚ := ((xs.sum : ℚ)) / (xs.length : ℚ)

/-- Python `statistics.pstdev` squared, i.e. the population variance
`sum((x - mean)^2) / n` (divide by `n`, not `n - 1`). -/
def pvariance (xs : List Int) : ℚ :=
  ((xs.map (fun x : Int => ((x : ℚ) - fmean xs) ^ 2)).sum) / (xs.length : ℚ)

/-- Python `statistics.pstdev`: the square root of the population variance. -/
noncomputable def pstdev (xs : List Int) : ℝ :=
  Real.sqrt ((pvariance xs : ℚ) : ℝ)

/-- The index `max(0, math.ceil(0.95 * n) - 1)` used for the 95th
percentile; `0.95 * n` is modelled as the exact rational product. -/
def p95_index (n : Nat) : Nat :=
  (max 0 (⌈(0.95 : ℚ) * (n : ℚ)⌉ - 1)).toNat

/-- The record built by the body of `summarize_counts` once no exception is
raised: sorted-index percentiles, guarded population stdev, mean per 1000
characters. -/
noncomputable def summary_record (size_label : List Char)
    (provider model : String) (counts : List Int) (chars : Int) :
    SampleStats :=
  { size_label := size_label
    model := model
    provider := provider
    num_trials := counts.length
    mean_tokens := fmean counts
    p50_tokens :=
      (((counts.mergeSort (fun a b => a ≤ b)).getD
        ((counts.mergeSort (fun a b => a ≤ b)).length / 2) 0 : Int) : ℚ)
    p95_tokens :=
      (((counts.mergeSort (fun a b => a ≤ b)).getD
        (p95_index (counts.mergeSort (fun a b => a ≤ b)).length) 0 : Int) : ℚ)
    stdev_tokens := if 1 < counts.length then pstdev counts else 0
    mean_tokens_per_1k_chars := fmean counts / ((chars : ℚ) / 1000) }

/-- Source `summarize_counts`: `statistics.fmean` raises `StatisticsError` on
an empty list, and `mean_tokens / (chars / 1000.0)` raises
`ZeroDivisionError` when `chars == 0`; otherwise the `SampleStats` record is
returned. -/
noncomputable def summarize_counts (size_label : List Char)
    (provider model : String) (counts : List Int) (chars : Int) :
    Except String SampleStats :=
  if counts.length = 0 then
    Except.error "StatisticsError: fmean requires at least one data point"
  else if chars = 0 then
    Except.error "ZeroDivisionError: float division by zero"
  else
    Except.ok (summary_record size_label provider model counts chars)

/-- The f-string `f"{chars} chars"` used as the size label. -/
def sizeLabel (chars : Int) : List Char := (toString chars).data ++ " chars".data

/-- The list comprehension
`[generate_lorem_text_by_chars(chars, rng) for _ in range(trials)]`:
generates `n` texts, threading the rng cursor left to right. -/
def gen_texts (chars : Int) (rng : Nat → Nat) :
    Nat → (n : Nat) → List (List Char) × Nat
  | off, 0 => ([], off)
  | off, n + 1 =>
    let p := generate_lorem_text_by_chars chars rng off
    let q := gen_texts chars rng p.2 n
    (p.1 :: q.1, q.2)

/-- The inner `for model in models` loop of `run_benchmark` for one provider
group: count every trial text with the bound counter and summarize; a raised
exception aborts the whole run (Python propagation). -/
noncomputable def summarize_models (size_label : List Char) (provider : String)
    (counter : String → List Char → Int) (texts : List (List Char))
    (chars : Int) : List String → Except String (List SampleStats)
  | [] => Except.ok []
  | model :: rest => do
    let s ← summarize_counts size_label provider model
      (texts.map (fun t => counter model t)) chars
    let r ← summarize_models size_label provider counter texts chars rest
    Except.ok (s :: r)

/-- The outer `for chars in sizes` loop of `run_benchmark`: per size, generate
the trial texts once, then all OpenAI models, then all Anthropic models, in
the given orders. -/
noncomputable def run_sizes (trials : Int) (openai_models anthropic_models : List String)
    (openaiCount : String → List Char → Int)
    (counter : String → List Char → Int) (rng : Nat → Nat) :
    List Int → Nat → Except String (List SampleStats)
  | [], _ => Except.ok []
  | chars :: rest, off =>
    let t := gen_texts chars rng off trials.toNat
    do
      let o ← summarize_models (sizeLabel chars) "openai" openaiCount t.1 chars
        openai_models
      let a ← summarize_models (sizeLabel chars) "anthropic" counter t.1 chars
        anthropic_models
      let r ← run_sizes trials openai_models anthropic_models openaiCount
        counter rng rest t.2
      Except.ok (o ++ (a ++ r))

/-- Source `run_benchmark`: seeds one rng (modelled as the stream `rng` with
cursor 0), binds the Anthropic counter once, and runs the nested loops.
`openaiCount` is the opaque tiktoken-based `count_tokens_openai`. -/
noncomputable def run_benchmark (sizes : List Int) (trials : Int)
    (openai_models anthropic_models : List String) (rng : Nat → Nat)
    (env : AnthropicEnv) (anthropic_api_key : Option String)
    (openaiCount : String → List Char → Int) :
    Except String (List SampleStats) :=
  run_sizes trials openai_models anthropic_models openaiCount
    (get_anthropic_counter env anthropic_api_key) rng sizes 0

/-- The loop invariantly returns a text of exactly `target_chars` characters
once `target_chars ≥ 1`, whatever words have been accumulated so far. -/
lemma generate_go_length (t : Int) (ht : 1 ≤ t) (rng : Nat → Nat) :
    ∀ off ws, (((generate_go t rng off ws).1.length : Int)) = t := by
  intro off ws
  induction off, ws using generate_go.induct t rng with
  | case1 off ws h =>
    rw [generate_go, if_pos h]
    rw [pySlice, if_pos (by omega : (0 : Int) ≤ t)]
    simp only [List.length_take]
    omega
  | case2 off ws h ih =>
    rw [generate_go, if_neg h]
    exact ih

/-- C1: for every integer `target_chars ≥ 1` and every seeded pseudo-random
source (stream and cursor), `generate_lorem_text_by_chars` returns a string
of length exactly `target_chars`, including when `target_chars` is smaller
than the first drawn word (the result is then a truncated prefix of that
length). -/
theorem c1_generate_length_exact (target_chars : Int) (rng : Nat → Nat)
    (off : Nat) (h : 1 ≤ target_chars) :
    (((generate_lorem_text_by_chars target_chars rng off).1.length : Int)) =
      target_chars :=
  generate_go_length target_chars h rng off []

/-- Witness for C1 at `target_chars = 3`, which is smaller than the first
drawn word `"lorem"` (the constant-zero stream always draws index 0). -/
theorem c1_generate_length_exact_witness :
    (((generate_lorem_text_by_chars 3 (fun _ => 0) 0).1.length : Int)) = 3 :=
  c1_generate_length_exact 3 (fun _ => 0) 0 (by norm_num)

/-- C9: generation is deterministic: two runs over extensionally equal
random streams, started at the same cursor, produce identical output texts
and identical final cursors. -/
theorem c9_generate_deterministic (target_chars : Int) (rng₁ rng₂ : Nat → Nat)
    (off : Nat) (h : ∀ n, rng₁ n = rng₂ n) :
    generate_lorem_text_by_chars target_chars rng₁ off =
      generate_lorem_text_by_chars target_chars rng₂ off := by
  have heq : rng₁ = rng₂ := funext h
  rw [heq]

/-- Witness for C9 with two syntactically different but pointwise equal
streams. -/
theorem c9_generate_deterministic_witness :
    generate_lorem_text_by_chars 7 (fun _ => 0) 0 =
      generate_lorem_text_by_chars 7 (fun n => n - n) 0 :=
  c9_generate_deterministic 7 (fun _ => 0) (fun n => n - n) 0
    (fun n => by simp)

/-- For every start state of the loop there is a fuel bound within which the
fuel-indexed loop halts with the value of the source loop. -/
lemma generate_go_fuel_halts (t : Int) (rng : Nat → Nat) :
    ∀ off ws, ∃ fuel,
      generate_go_fuel fuel t rng off ws = some (generate_go t rng off ws) := by
  intro off ws
  induction off, ws using generate_go.induct t rng with
  | case1 off ws h =>
    refine ⟨1, ?_⟩
    rw [generate_go, if_pos h]
    simp [generate_go_fuel, if_pos h]
  | case2 off ws h ih =>
    obtain ⟨fuel, hf⟩ := ih
    refine ⟨fuel + 1, ?_⟩
    rw [generate_go, if_neg h]
    simpa [generate_go_fuel, if_neg h] using hf

/-- C10: the generation loop terminates for every integer `target_chars` and
every random stream (every corpus word is non-empty, so the joined length
strictly grows), and for `target_chars ≤ 0` it terminates after exactly one
iteration (fuel 1 suffices). -/
theorem c10_generate_terminates (target_chars : Int) (rng : Nat → Nat)
    (off : Nat) :
    (∃ fuel, generate_go_fuel fuel target_chars rng off [] =
        some (generate_lorem_text_by_chars target_chars rng off)) ∧
    (target_chars ≤ 0 →
      generate_go_fuel 1 target_chars rng off [] =
        some (generate_lorem_text_by_chars target_chars rng off)) := by
  constructor
  · exact generate_go_fuel_halts target_chars rng off []
  · intro hle
    have hpos := lorem_choice_length_pos rng off
    have hcond : target_chars ≤
        ((joinWords ([] ++ [lorem_choice rng off])).length : Int) := by
      have hj : joinWords ([] ++ [lorem_choice rng off]) = lorem_choice rng off := by
        simp [joinWords]
      rw [hj]
      omega
    rw [generate_lorem_text_by_chars, generate_go, if_pos hcond]
    simp only [generate_go_fuel]
    rw [if_pos hcond]

/-- Witness for C10 at the non-positive target `-2`: one iteration. -/
theorem c10_generate_terminates_witness :
    generate_go_fuel 1 (-2) (fun _ => 0) 0 [] =
      some (generate_lorem_text_by_chars (-2) (fun _ => 0) 0) :=
  (c10_generate_terminates (-2) (fun _ => 0) 0).2 (by norm_num)

/-- When the counts are non-empty and the character count is non-zero,
`summarize_counts` raises nothing and returns the record. -/
lemma summarize_counts_eq_ok (lbl : List Char) (prov model : String)
    (counts : List Int) (chars : Int) (h : counts ≠ []) (hc : chars ≠ 0) :
    summarize_counts lbl prov model counts chars =
      Except.ok (summary_record lbl prov model counts chars) := by
  rw [summarize_counts, if_neg (by simpa using h), if_neg hc]

/-- The ceiling-based 95th-percentile index in closed natural-number form. -/
lemma p95_index_eq (n : Nat) : p95_index n = (19 * n + 19) / 20 - 1 := by
  rw [p95_index]
  have h95 : (0.95 : ℚ) * (n : ℚ) = ((19 * n : Nat) : ℚ) / 20 := by
    rw [show (0.95 : ℚ) = 19 / 20 by norm_num]
    push_cast
    ring
  rw [h95]
  have hmod : (19 * n + 19) % 20 < 20 := Nat.mod_lt _ (by norm_num)
  have hdiv := Nat.div_add_mod (19 * n + 19) 20
  have h1 : 20 * ((19 * n + 19) / 20) ≤ 19 * n + 19 := by omega
  have h2 : 19 * n + 19 < 20 * ((19 * n + 19) / 20) + 20 := by omega
  have hk1 : 19 * n ≤ ((19 * n + 19) / 20) * 20 := by omega
  have hk2 : ((19 * n + 19) / 20) * 20 < 19 * n + 20 := by omega
  have hceil : ⌈((19 * n : Nat) : ℚ) / 20⌉ = (((19 * n + 19) / 20 : Nat) : Int) := by
    have e1 : (((((19 * n + 19) / 20 : Nat) : Int)) : ℚ) =
        (((19 * n + 19) / 20 : Nat) : ℚ) := by
      exact_mod_cast rfl
    rw [Int.ceil_eq_iff, e1]
    constructor
    · rw [lt_div_iff₀ (by norm_num : (0 : ℚ) < 20)]
      have hq : (((19 * n + 19) / 20 : Nat) : ℚ) * 20 < ((19 * n : Nat) : ℚ) + 20 := by
        exact_mod_cast hk2
      linarith
    · rw [div_le_iff₀ (by norm_num : (0 : ℚ) < 20)]
      have hq : ((19 * n : Nat) : ℚ) ≤ (((19 * n + 19) / 20 : Nat) : ℚ) * 20 := by
        exact_mod_cast hk1
      linarith
  rw [hceil]
  omega

/-- C2: the summarizer's p50 is the element at index `floor(n/2)` of the
ascending-sorted counts and its p95 the element at index
`max(0, ceil(0.95*n)-1) = (19*n+19)/20 - 1`: the sort used is sorted and a
permutation of the input, and the record's two percentile fields are exactly
those index picks. -/
theorem c2_percentile_index_pick (lbl : List Char) (prov model : String)
    (counts : List Int) (chars : Int) (h : counts ≠ []) (hc : chars ≠ 0) :
    summarize_counts lbl prov model counts chars =
      Except.ok (summary_record lbl prov model counts chars) ∧
    (counts.mergeSort (fun a b => a ≤ b)).Sorted (· ≤ ·) ∧
    (counts.mergeSort (fun a b => a ≤ b)).Perm counts ∧
    (summary_record lbl prov model counts chars).p50_tokens =
      (((counts.mergeSort (fun a b => a ≤ b)).getD (counts.length / 2) 0 : Int) : ℚ) ∧
    (summary_record lbl prov model counts chars).p95_tokens =
      (((counts.mergeSort (fun a b => a ≤ b)).getD
        ((19 * counts.length + 19) / 20 - 1) 0 : Int) : ℚ) := by
  refine ⟨summarize_counts_eq_ok lbl prov model counts chars h hc, ?_, ?_, ?_, ?_⟩
  · have hs := @List.sorted_mergeSort Int (fun a b => decide (a ≤ b))
      (by intro a b c hab hbc; simp at hab hbc ⊢; omega)
      (by intro a b; simp; omega) counts
    exact hs.imp (fun hab => by simpa using hab)
  · exact List.mergeSort_perm counts _
  · simp only [summary_record, List.length_mergeSort]
  · simp only [summary_record, List.length_mergeSort, p95_index_eq]

/-- Witness for C2 at the claim's own example `[10, 20, 30, 40]`: p50 is the
element at index 2 (the third smallest, 30) and p95 the element at index 3
(the largest, 40). -/
theorem c2_percentile_index_pick_witness :
    summarize_counts [] "openai" "m" [10, 20, 30, 40] 4 =
      Except.ok (summary_record [] "openai" "m" [10, 20, 30, 40] 4) ∧
    (summary_record [] "openai" "m" [10, 20, 30, 40] 4).p50_tokens = 30 ∧
    (summary_record [] "openai" "m" [10, 20, 30, 40] 4).p95_tokens = 40 := by
  obtain ⟨hok, hsort, hperm, h50, h95⟩ :=
    c2_percentile_index_pick [] "openai" "m" [10, 20, 30, 40] 4
      (by decide) (by norm_num)
  have hms : ([10, 20, 30, 40] : List Int).mergeSort (fun a b => a ≤ b) =
      [10, 20, 30, 40] := List.mergeSort_of_sorted (by decide)
  refine ⟨hok, ?_, ?_⟩
  · rw [h50, hms]
    norm_num [List.getD]
  · rw [h95, hms]
    norm_num [List.getD]

/-- The population variance of a one-element sample is zero. -/
lemma pvariance_singleton (x : Int) : pvariance [x] = 0 := by
  simp [pvariance, fmean]

/-- The mean of a non-empty constant sample is that constant. -/
lemma fmean_const (counts : List Int) (c : Int) (h : counts ≠ [])
    (hall : ∀ x ∈ counts, x = c) : fmean counts = (c : ℚ) := by
  have hlen : counts.length ≠ 0 := by simpa using h
  have hsum : counts.sum = (counts.length : Int) * c := by
    have hn := List.sum_eq_card_nsmul counts c hall
    rw [hn, nsmul_eq_mul]
  rw [fmean, hsum]
  push_cast
  exact mul_div_cancel_left₀ _ (by exact_mod_cast hlen)

/-- The population variance of a non-empty constant sample is zero. -/
lemma pvariance_const (counts : List Int) (c : Int) (h : counts ≠ [])
    (hall : ∀ x ∈ counts, x = c) : pvariance counts = 0 := by
  have hz : ∀ l : List Int, (∀ x ∈ l, x = c) →
      (l.map (fun x : Int => ((x : ℚ) - (c : ℚ)) ^ 2)).sum = 0 := by
    intro l
    induction l with
    | nil => intro _; simp
    | cons a t ih =>
      intro hl
      have ha : a = c := hl a (List.mem_cons_self a t)
      rw [List.map_cons, List.sum_cons,
        ih (fun x hx => hl x (List.mem_cons_of_mem a hx)), ha]
      ring
  rw [pvariance, fmean_const counts c h hall, hz counts hall, zero_div]

/-- C3: the summarizer's `stdev_tokens` field equals the population standard
deviation (square root of the divide-by-n variance), is non-negative, and is
zero for a single-element sample and for any constant sample. -/
theorem c3_stdev_population (lbl : List Char) (prov model : String)
    (counts : List Int) (chars : Int) (h : counts ≠ [])
    (hnn : ∀ x ∈ counts, 0 ≤ x) (hc : chars ≠ 0) :
    summarize_counts lbl prov model counts chars =
      Except.ok (summary_record lbl prov model counts chars) ∧
    (summary_record lbl prov model counts chars).stdev_tokens =
      Real.sqrt ((pvariance counts : ℚ) : ℝ) ∧
    0 ≤ (summary_record lbl prov model counts chars).stdev_tokens ∧
    (counts.length = 1 →
      (summary_record lbl prov model counts chars).stdev_tokens = 0) ∧
    (∀ c : Int, (∀ x ∈ counts, x = c) →
      (summary_record lbl prov model counts chars).stdev_tokens = 0) := by
  have hsq : (summary_record lbl prov model counts chars).stdev_tokens =
      Real.sqrt ((pvariance counts : ℚ) : ℝ) := by
    show (if 1 < counts.length then pstdev counts else 0) = _
    by_cases h1 : 1 < counts.length
    · rw [if_pos h1, pstdev]
    · rw [if_neg h1]
      have hlen : counts.length = 1 := by
        have : counts.length ≠ 0 := by simpa using h
        omega
      obtain ⟨x, rfl⟩ := List.length_eq_one.mp hlen
      rw [pvariance_singleton]
      simp
  refine ⟨summarize_counts_eq_ok lbl prov model counts chars h hc, hsq, ?_, ?_, ?_⟩
  · rw [hsq]
    exact Real.sqrt_nonneg _
  · intro hlen
    obtain ⟨x, rfl⟩ := List.length_eq_one.mp hlen
    rw [hsq, pvariance_singleton]
    simp
  · intro c hall
    rw [hsq, pvariance_const counts c h hall]
    simp

/-- Witness for C3 at the constant two-element sample `[5, 5]`. -/
theorem c3_stdev_population_witness :
    summarize_counts [] "openai" "m" [5, 5] 1000 =
      Except.ok (summary_record [] "openai" "m" [5, 5] 1000) ∧
    (summary_record [] "openai" "m" [5, 5] 1000).stdev_tokens =
      Real.sqrt ((pvariance [5, 5] : ℚ) : ℝ) ∧
    0 ≤ (summary_record [] "openai" "m" [5, 5] 1000).stdev_tokens ∧
    (([5, 5] : List Int).length = 1 →
      (summary_record [] "openai" "m" [5, 5] 1000).stdev_tokens = 0) ∧
    (∀ c : Int, (∀ x ∈ ([5, 5] : List Int), x = c) →
      (summary_record [] "openai" "m" [5, 5] 1000).stdev_tokens = 0) :=
  c3_stdev_population [] "openai" "m" [5, 5] 1000 (by decide)
    (by decide) (by norm_num)

/-- Doubling every count doubles the (exact) mean. -/
lemma fmean_double (counts : List Int) :
    fmean (counts.map (fun x => 2 * x)) = 2 * fmean counts := by
  have hsum : (counts.map (fun x => 2 * x)).sum = 2 * counts.sum := by
    induction counts with
    | nil => simp
    | cons a t ih =>
      simp only [List.map_cons, List.sum_cons, ih]
      ring
  rw [fmean, fmean, List.length_map, hsum]
  push_cast
  ring

/-- C4: the record's `mean_tokens_per_1k_chars` equals
`mean(counts) / (char_count / 1000)`, and doubling every element of the
counts doubles it for the same character count. -/
theorem c4_mean_per_1k_linear (lbl : List Char) (prov model : String)
    (counts : List Int) (chars : Int) (h : counts ≠ []) (hc : 0 < chars) :
    summarize_counts lbl prov model counts chars =
      Except.ok (summary_record lbl prov model counts chars) ∧
    (summary_record lbl prov model counts chars).mean_tokens_per_1k_chars =
      fmean counts / ((chars : ℚ) / 1000) ∧
    summarize_counts lbl prov model (counts.map (fun x => 2 * x)) chars =
      Except.ok (summary_record lbl prov model (counts.map (fun x => 2 * x)) chars) ∧
    (summary_record lbl prov model (counts.map (fun x => 2 * x)) chars).mean_tokens_per_1k_chars =
      2 * (summary_record lbl prov model counts chars).mean_tokens_per_1k_chars := by
  have hc0 : chars ≠ 0 := by omega
  have h2 : counts.map (fun x => 2 * x) ≠ [] := by
    simpa using h
  refine ⟨summarize_counts_eq_ok lbl prov model counts chars h hc0, rfl,
    summarize_counts_eq_ok lbl prov model _ chars h2 hc0, ?_⟩
  show fmean (counts.map (fun x => 2 * x)) / ((chars : ℚ) / 1000) =
    2 * (fmean counts / ((chars : ℚ) / 1000))
  rw [fmean_double, mul_div_assoc]

/-- Witness for C4 at `counts = [1, 2]`, `chars = 1000`. -/
theorem c4_mean_per_1k_linear_witness :
    summarize_counts [] "openai" "m" [1, 2] 1000 =
      Except.ok (summary_record [] "openai" "m" [1, 2] 1000) ∧
    (summary_record [] "openai" "m" [1, 2] 1000).mean_tokens_per_1k_chars =
      fmean [1, 2] / ((1000 : ℚ) / 1000) ∧
    summarize_counts [] "openai" "m" (([1, 2] : List Int).map (fun x => 2 * x)) 1000 =
      Except.ok (summary_record [] "openai" "m"
        (([1, 2] : List Int).map (fun x => 2 * x)) 1000) ∧
    (summary_record [] "openai" "m"
        (([1, 2] : List Int).map (fun x => 2 * x)) 1000).mean_tokens_per_1k_chars =
      2 * (summary_record [] "openai" "m" [1, 2] 1000).mean_tokens_per_1k_chars :=
  c4_mean_per_1k_linear [] "openai" "m" [1, 2] 1000 (by decide) (by norm_num)

/-- The batch generator produces exactly `n` texts. -/
lemma gen_texts_length (chars : Int) (rng : Nat → Nat) :
    ∀ (off n : Nat), (gen_texts chars rng off n).1.length = n := by
  intro off n
  induction n generalizing off with
  | zero => rfl
  | succ m ih =>
    show ((gen_texts chars rng off (m + 1)).1).length = m + 1
    rw [gen_texts]
    simp [ih]

/-- One provider group succeeds when the texts are non-empty and the size is
non-zero, and its output keys mirror the model list in order. -/
lemma summarize_models_ok (lbl : List Char) (prov : String)
    (counter : String → List Char → Int) (texts : List (List Char))
    (chars : Int) (ht : texts ≠ []) (hc : chars ≠ 0) :
    ∀ models : List String, ∃ out,
      summarize_models lbl prov counter texts chars models = Except.ok out ∧
      out.map (fun r => (r.size_label, r.provider, r.model)) =
        models.map (fun m => (lbl, prov, m)) := by
  intro models
  induction models with
  | nil => exact ⟨[], rfl, rfl⟩
  | cons m rest ih =>
    obtain ⟨out, ho, hmap⟩ := ih
    have hcounts : texts.map (fun t => counter m t) ≠ [] := by
      simpa using ht
    refine ⟨summary_record lbl prov m (texts.map (fun t => counter m t)) chars
      :: out, ?_, ?_⟩
    · rw [summarize_models]
      rw [summarize_counts_eq_ok lbl prov m _ chars hcounts hc, ho]
      rfl
    · simp [hmap, summary_record]

/-- The size loop succeeds for positive trial counts and non-zero sizes, and
its output keys mirror the requested (size, provider, model) combinations in
order: sizes outermost, then all OpenAI models, then all Anthropic models. -/
lemma run_sizes_ok_shape (trials : Int) (om am : List String)
    (oc counter : String → List Char → Int) (rng : Nat → Nat)
    (htr : 1 ≤ trials) :
    ∀ (sizes : List Int) (off : Nat), (∀ s ∈ sizes, s ≠ 0) →
    ∃ res, run_sizes trials om am oc counter rng sizes off = Except.ok res ∧
      res.map (fun r => (r.size_label, r.provider, r.model)) =
        sizes.flatMap (fun c => om.map (fun m => (sizeLabel c, "openai", m)) ++
          am.map (fun m => (sizeLabel c, "anthropic", m))) := by
  intro sizes
  induction sizes with
  | nil => exact fun off _ => ⟨[], rfl, rfl⟩
  | cons c rest ih =>
    intro off hs
    have hc : c ≠ 0 := hs c (List.mem_cons_self c rest)
    have htx : (gen_texts c rng off trials.toNat).1 ≠ [] := by
      have hlen := gen_texts_length c rng off trials.toNat
      have : trials.toNat ≠ 0 := by omega
      intro hnil
      rw [hnil] at hlen
      simp at hlen
      omega
    obtain ⟨o, hoo, hom⟩ := summarize_models_ok (sizeLabel c) "openai" oc
      (gen_texts c rng off trials.toNat).1 c htx hc om
    obtain ⟨a, hao, ham⟩ := summarize_models_ok (sizeLabel c) "anthropic" counter
      (gen_texts c rng off trials.toNat).1 c htx hc am
    obtain ⟨r, hro, hrm⟩ := ih (gen_texts c rng off trials.toNat).2
      (fun s hsm => hs s (List.mem_cons_of_mem c hsm))
    refine ⟨o ++ (a ++ r), ?_, ?_⟩
    · rw [run_sizes, hoo, hao, hro]
      rfl
    · rw [List.map_append, List.map_append, hom, ham, hrm, List.flatMap_cons,
        List.append_assoc]

/-- A positive trial count yields a non-empty text batch. -/
lemma gen_texts_ne_nil (chars : Int) (rng : Nat → Nat) (off n : Nat)
    (h : n ≠ 0) : (gen_texts chars rng off n).1 ≠ [] := by
  have hlen := gen_texts_length chars rng off n
  intro hnil
  rw [hnil] at hlen
  simp at hlen
  omega

/-- With no trial texts, the first summarize call of a provider group raises
the empty-data error. -/
lemma summarize_models_err_empty (lbl : List Char) (prov : String)
    (counter : String → List Char → Int) (chars : Int) (m : String)
    (ms : List String) :
    summarize_models lbl prov counter [] chars (m :: ms) =
      Except.error "StatisticsError: fmean requires at least one data point" :=
  rfl

/-- With a zero character count and at least one text, the first summarize
call of a provider group raises the division-by-zero error. -/
lemma summarize_models_err_zero (lbl : List Char) (prov : String)
    (counter : String → List Char → Int) (texts : List (List Char))
    (m : String) (ms : List String) (ht : texts ≠ []) :
    summarize_models lbl prov counter texts 0 (m :: ms) =
      Except.error "ZeroDivisionError: float division by zero" := by
  rw [summarize_models, summarize_counts]
  rw [if_neg (by simpa using ht), if_pos rfl]
  rfl

/-- A zero size anywhere in the size list aborts the size loop: sizes before
it (zero trials excluded, any sign) summarize fine, and the error raised at
the zero size propagates out of the remaining binds. -/
lemma run_sizes_err_zero_mem (trials : Int) (om am : List String)
    (oc counter : String → List Char → Int) (rng : Nat → Nat)
    (htr : 1 ≤ trials) (hne : om ++ am ≠ []) :
    ∀ (sizes : List Int) (off : Nat), 0 ∈ sizes →
      (run_sizes trials om am oc counter rng sizes off).isOk = false := by
  intro sizes
  induction sizes with
  | nil => intro off hmem; simp at hmem
  | cons c rest ih =>
    intro off hmem
    have htx : (gen_texts c rng off trials.toNat).1 ≠ [] :=
      gen_texts_ne_nil c rng off trials.toNat (by omega)
    by_cases hc : c = 0
    · subst hc
      cases om with
      | cons m om2 =>
        rw [run_sizes,
          summarize_models_err_zero (sizeLabel 0) "openai" oc _ m om2 htx]
        rfl
      | nil =>
        cases am with
        | nil => simp at hne
        | cons m am2 =>
          rw [run_sizes,
            summarize_models_err_zero (sizeLabel 0) "anthropic" counter _ m
              am2 htx]
          rfl
    · have h0r : 0 ∈ rest := by
        rcases List.mem_cons.mp hmem with h | h
        · exact absurd h.symm hc
        · exact h
      obtain ⟨o, hoo, _⟩ := summarize_models_ok (sizeLabel c) "openai" oc
        (gen_texts c rng off trials.toNat).1 c htx hc om
      obtain ⟨a, hao, _⟩ := summarize_models_ok (sizeLabel c) "anthropic"
        counter (gen_texts c rng off trials.toNat).1 c htx hc am
      have hr := ih (gen_texts c rng off trials.toNat).2 h0r
      cases heq : run_sizes trials om am oc counter rng rest
          (gen_texts c rng off trials.toNat).2 with
      | ok v =>
        rw [heq] at hr
        simp [Except.isOk, Except.toBool] at hr
      | error e =>
        rw [run_sizes, hoo, hao, heq]
        rfl

/-- C5 (amended): the summarizer fails fast on an empty counts sequence and
returns no record; a run with a non-positive trial count and at least one
requested model aborts with that error; a run with a zero size at any
position in the size list (with a positive trial count and at least one
requested model) aborts with a division-by-zero error.  (A negative size, by
contrast, is not rejected: see the counterexample.) -/
theorem c5_precondition_fail_fast :
    (∀ (lbl : List Char) (prov model : String) (chars : Int),
      summarize_counts lbl prov model [] chars =
        Except.error "StatisticsError: fmean requires at least one data point") ∧
    (∀ (c : Int) (rest : List Int) (trials : Int) (om am : List String)
      (rng : Nat → Nat) (env : AnthropicEnv) (key : Option String)
      (oc : String → List Char → Int), trials ≤ 0 → om ++ am ≠ [] →
      (run_benchmark (c :: rest) trials om am rng env key oc).isOk = false) ∧
    (∀ (sizes : List Int) (trials : Int) (om am : List String)
      (rng : Nat → Nat) (env : AnthropicEnv) (key : Option String)
      (oc : String → List Char → Int), 1 ≤ trials → om ++ am ≠ [] →
      0 ∈ sizes →
      (run_benchmark sizes trials om am rng env key oc).isOk = false) := by
  refine ⟨fun lbl prov model chars => rfl, ?_, ?_⟩
  · intro c rest trials om am rng env key oc htr hne
    have h0 : trials.toNat = 0 := by omega
    cases om with
    | cons m om2 =>
      rw [run_benchmark, run_sizes, h0]
      rfl
    | nil =>
      cases am with
      | nil => simp at hne
      | cons m am2 =>
        rw [run_benchmark, run_sizes, h0]
        rfl
  · intro sizes trials om am rng env key oc htr hne hmem
    rw [run_benchmark]
    exact run_sizes_err_zero_mem trials om am oc
      (get_anthropic_counter env key) rng htr hne sizes 0 hmem

/-- Counterexample to C5 as stated: a run with the non-positive size `-1`
(and positive trials and a requested model) is not rejected — it completes
and returns records. -/
theorem c5_counterexample_negative_size :
    (run_benchmark [-1] 1 ["gpt-4o"] ["claude-3-5-sonnet-20240620"]
      (fun _ => 0) ⟨false, none, fun _ _ => none, fun _ => []⟩ none
      (fun _ _ => 0)).isOk = true := by
  obtain ⟨res, hok, _⟩ := run_sizes_ok_shape 1 ["gpt-4o"]
    ["claude-3-5-sonnet-20240620"] (fun _ _ => 0)
    (get_anthropic_counter ⟨false, none, fun _ _ => none, fun _ => []⟩ none)
    (fun _ => 0) (by norm_num) [-1] 0 (by decide)
  rw [run_benchmark, hok]
  rfl

/-- C6: for the live-capable Anthropic provider: an unavailable SDK or an
untruthy resolved credential binds the approximate counter for the entire
run; when the live counter is bound, a failing live call falls back to the
cl100k_base approximate count for that same text (a counting failure is
never propagated); and a run whose every live call fails still completes,
with every Anthropic count equal to the approximate count. -/
theorem c6_live_failure_fallback (env : AnthropicEnv) (api_key : Option String) :
    ((env.sdkAvailable = false ∨
        strTruthy (effective_key api_key env.envKey) = false) →
      get_anthropic_counter env api_key = fun _ text => approx_count env text) ∧
    (∀ model text, env.liveCall model text = none →
      get_anthropic_counter env api_key model text = approx_count env text) ∧
    ((∀ m t, env.liveCall m t = none) →
      (∀ m t, get_anthropic_counter env api_key m t = approx_count env t) ∧
      ∀ (sizes : List Int) (trials : Int) (om am : List String)
        (rng : Nat → Nat) (oc : String → List Char → Int),
        1 ≤ trials → (∀ s ∈ sizes, s ≠ 0) →
        (run_benchmark sizes trials om am rng env api_key oc).isOk = true) := by
  have hcall : ∀ model text, env.liveCall model text = none →
      get_anthropic_counter env api_key model text = approx_count env text := by
    intro model text hl
    rw [get_anthropic_counter]
    by_cases hcond :
        (env.sdkAvailable && strTruthy (effective_key api_key env.envKey)) = true
    · rw [if_pos hcond, hl]
    · rw [if_neg hcond]
  refine ⟨?_, hcall, ?_⟩
  · intro h
    have hcond :
        (env.sdkAvailable && strTruthy (effective_key api_key env.envKey)) = false := by
      rcases h with h | h <;> simp [h]
    rw [get_anthropic_counter, hcond]
    simp
  · intro hfail
    refine ⟨fun m t => hcall m t (hfail m t), ?_⟩
    intro sizes trials om am rng oc h1 h2
    obtain ⟨res, hok, _⟩ := run_sizes_ok_shape trials om am oc
      (get_anthropic_counter env api_key) rng h1 sizes 0 h2
    rw [run_benchmark, hok]
    rfl

/-- Counterexample to C7 as stated: when the explicit argument is the (falsy)
empty string and the environment variable holds a key, the code resolves to
the environment key and attempts the live path (count 999), although the
claim says a present explicit argument wins (the empty key would then be
falsy, binding the approximate counter, count 1). -/
theorem c7_counterexample_empty_explicit_key :
    effective_key (some "") (some "k") = some "k" ∧
    get_anthropic_counter ⟨true, some "k", fun _ _ => some 999, fun _ => [0]⟩
      (some "") "claude-3-5-sonnet-20240620" ['x'] = 999 ∧
    approx_count ⟨true, some "k", fun _ _ => some 999, fun _ => [0]⟩ ['x'] = 1 :=
  ⟨rfl, rfl, rfl⟩

/-- C7 (amended): the explicit api_key argument wins when it is truthy
(present and non-empty); otherwise — absent or empty — the environment
variable is used (Python `or` falsiness); and whenever the resolved key is
untruthy the live path is never attempted: the bound counter is the
approximate one, whatever the live API would return. -/
theorem c7_credential_precedence (api_key env_key : Option String) :
    (strTruthy api_key = true → effective_key api_key env_key = api_key) ∧
    (strTruthy api_key = false → effective_key api_key env_key = env_key) ∧
    (∀ env : AnthropicEnv, env.envKey = env_key →
      strTruthy (effective_key api_key env_key) = false →
      get_anthropic_counter env api_key = fun _ text => approx_count env text) := by
  refine ⟨?_, ?_, ?_⟩
  · intro h
    rw [effective_key, h]
    rfl
  · intro h
    rw [effective_key, h]
    rfl
  · intro env henv hfalse
    rw [get_anthropic_counter, ← henv] at *
    rw [hfalse]
    simp

/-- C8 (amended): for a positive trial count and sizes without zero, the run
completes and returns exactly one record per requested (size, provider,
model) combination, mirroring the input order: sizes in the given order, and
within each size all OpenAI models (in order) before all Anthropic models
(in order). -/
theorem c8_output_mirrors_input (sizes : List Int) (trials : Int)
    (om am : List String) (rng : Nat → Nat) (env : AnthropicEnv)
    (key : Option String) (oc : String → List Char → Int)
    (h1 : 1 ≤ trials) (h2 : ∀ s ∈ sizes, s ≠ 0) :
    (run_benchmark sizes trials om am rng env key oc).map
      (fun res => res.map (fun r => (r.size_label, r.provider, r.model))) =
    Except.ok (sizes.flatMap (fun c =>
      om.map (fun m => (sizeLabel c, "openai", m)) ++
      am.map (fun m => (sizeLabel c, "anthropic", m)))) := by
  obtain ⟨res, hok, hmap⟩ := run_sizes_ok_shape trials om am oc
    (get_anthropic_counter env key) rng h1 sizes 0 h2
  rw [run_benchmark, hok, Except.map, hmap]

/-- Witness for C8 (amended) at one size, one trial, one model per provider. -/
theorem c8_output_mirrors_input_witness :
    (run_benchmark [2] 1 ["gpt-4o"] ["claude-3-5-sonnet-20240620"]
      (fun _ => 0) ⟨false, none, fun _ _ => none, fun _ => []⟩ none
      (fun _ _ => 0)).map
      (fun res => res.map (fun r => (r.size_label, r.provider, r.model))) =
    Except.ok (([2] : List Int).flatMap (fun c =>
      ["gpt-4o"].map (fun m => (sizeLabel c, "openai", m)) ++
      ["claude-3-5-sonnet-20240620"].map
        (fun m => (sizeLabel c, "anthropic", m)))) :=
  c8_output_mirrors_input [2] 1 ["gpt-4o"] ["claude-3-5-sonnet-20240620"]
    (fun _ => 0) ⟨false, none, fun _ _ => none, fun _ => []⟩ none
    (fun _ _ => 0) (by norm_num) (by decide)

/-- Counterexample to C8 as stated: with a zero trial count (an input the
claim quantifies over) the run does not complete — the first summarize call
raises. -/
theorem c8_counterexample_zero_trials :
    (run_benchmark [1] 0 ["gpt-4o"] [] (fun _ => 0)
      ⟨false, none, fun _ _ => none, fun _ => []⟩ none
      (fun _ _ => 0)).isOk = false := by
  rfl

end TokenEstimation
